import Mathlib

/-!
Shallow embedding of the client-side state orchestration of the
Prompt-to-Image chatbot (src/Chatbot/src/components/ImageForge.tsx):
the history store, the undo chain, the thumbnail dimension computation,
and the generate/edit orchestration, together with proofs of the spec's
testable properties.
-/

namespace ImageForge

/-- Prompts and encoded image payloads (JavaScript strings) are modelled
as lists of characters. -/
abbrev Str := List Char

/-- Constant MAX_HISTORY_LENGTH (ImageForge.tsx line 50). -/
def MAX_HISTORY_LENGTH : Nat := 5

/-- Constant MAX_UNDO_STEPS (ImageForge.tsx line 51). -/
def MAX_UNDO_STEPS : Nat := 5

/-- The ASCII whitespace characters removed by the JavaScript trim()
used in the validation checks. -/
def isJsWhitespace (c : Char) : Bool :=
  c = ' ' || c = '\t' || c = '\n' || c = '\r' || c = Char.ofNat 11 || c = Char.ofNat 12

/-- JavaScript String.prototype.trim, as called at lines 201 and 241:
drop whitespace from both ends. -/
def jsTrim (s : Str) : Str :=
  ((s.dropWhile isJsWhitespace).reverse.dropWhile isJsWhitespace).reverse

/-- One title/description suggestion item (RefinedPromptSchema and
SuggestedEditSchema in the flow files). -/
structure SuggestionItem where
  title : Str
  description : Str
deriving DecidableEq

/-- Output of the refine-prompt-v2 flow (refine-prompt-v2.ts): three
tiers of prompt refinements. -/
structure RefinePromptV2Output where
  basic : List SuggestionItem
  intermediate : List SuggestionItem
  advanced : List SuggestionItem
deriving DecidableEq

/-- Output of the suggest-edits flow (suggest-edits.ts): three thematic
tiers of edit suggestions. -/
structure SuggestEditsOutput where
  creative : List SuggestionItem
  style : List SuggestionItem
  improvements : List SuggestionItem
deriving DecidableEq

/-- The React state of the ImageForge component (lines 89-103), together
with the persisted localStorage slot written by the save effect
(lines 126-141). Loader booleans are omitted: no claim mentions them. -/
structure AppState where
  prompt : Str
  editPrompt : Str
  imageUrl : Option Str
  undoStack : List Str
  isUploadedImage : Bool
  error : Option Str
  imageHistory : List Str
  refinedPrompts : Option RefinePromptV2Output
  suggestedEdits : Option SuggestEditsOutput
  persistedHistory : List Str
deriving DecidableEq

/-- The all-empty initial state of the component. -/
def initState : AppState :=
  { prompt := [], editPrompt := [], imageUrl := none, undoStack := [],
    isUploadedImage := false, error := none, imageHistory := [],
    refinedPrompts := none, suggestedEdits := none, persistedHistory := [] }

/-- The history update applied inside updateImageHistory (lines 147-151):
remove entries equal to the new thumbnail, prepend it, keep the first
MAX_HISTORY_LENGTH entries. -/
def recordThumbnail (thumbnailUrl : Str) (prevHistory : List Str) : List Str :=
  let filteredHistory := prevHistory.filter (fun url => decide (url ≠ thumbnailUrl))
  (thumbnailUrl :: filteredHistory).take MAX_HISTORY_LENGTH

/-- updateImageHistory (lines 144-160): thumbnail the new image with the
external encoder (the parameter thumb) and record it. -/
def updateImageHistory (thumb : Str → Str) (newImageUrl : Str) (s : AppState) : AppState :=
  { s with imageHistory := recordThumbnail (thumb newImageUrl) s.imageHistory }

/-- Folding a sequence of recorded thumbnails into the history list. -/
def recordAll (ts : List Str) (h : List Str) : List Str :=
  ts.foldl (fun acc t => recordThumbnail t acc) h

/-- The save effect (lines 126-141): persist the in-memory history list
wholesale into the storage slot. -/
def persistHistory (s : AppState) : AppState :=
  { s with persistedHistory := s.imageHistory }

/-- The possible outcomes of reading the persisted slot at start-up:
absent, present but failing to parse, parsing to a non-array JSON value,
or parsing to an array. -/
inductive StoredHistory where
  | absent
  | unparsable
  | parsedNonArray
  | parsedArray (l : List Str)

/-- The load-on-start effect (lines 106-123): the in-memory history list
it produces, paired with whether the destructive History-Load-Failed
toast is raised. Only the unparsable case reaches the catch block. -/
def loadHistoryOnStart : StoredHistory → List Str × Bool
  | .absent => ([], false)
  | .unparsable => ([], true)
  | .parsedNonArray => ([], false)
  | .parsedArray l => (l, false)

/-- The optimistic push at line 255: prepend the current image and
truncate to MAX_UNDO_STEPS entries. -/
def pushUndo (imageUrl : Str) (prev : List Str) : List Str :=
  (imageUrl :: prev).take MAX_UNDO_STEPS

/-- The chain obtained by pushing a sequence of states, in order, onto an
empty chain. -/
def pushAll (ps : List Str) : List Str :=
  ps.foldl (fun st p => pushUndo p st) []

/-- handleUndo (lines 385-396): pop the most recent entry if the chain is
non-empty, otherwise leave the state untouched. -/
def handleUndo (s : AppState) : AppState :=
  match s.undoStack with
  | [] => s
  | lastImage :: rest => { s with imageUrl := some lastImage, undoStack := rest }

/-- Image dimensions; JavaScript numbers are idealized as rationals. -/
structure Dims where
  width : ℚ
  height : ℚ
deriving DecidableEq

/-- The dimension computation of createThumbnailDataUri (lines 64-75):
scale the longer side down to maxSize, the other proportionally; leave
images that already fit untouched. -/
def resizeDims (d : Dims) (maxSize : ℚ) : Dims :=
  if d.width > d.height then
    if d.width > maxSize then
      { width := maxSize, height := d.height * (maxSize / d.width) }
    else d
  else
    if d.height > maxSize then
      { width := d.width * (maxSize / d.height), height := maxSize }
    else d

/-- The output of the thumbnail encoder: dimensions plus re-encoding
parameters. -/
structure ThumbnailEncoding where
  dims : Dims
  format : Str
  quality : ℚ
deriving DecidableEq

/-- createThumbnailDataUri (lines 54-85), restricted to its dimension and
encoding mathematics: resize to fit 400 and re-encode as JPEG at quality
0.7 (line 80). -/
def createThumbnailDataUri (d : Dims) : ThumbnailEncoding :=
  { dims := resizeDims d 400
    format := ("image/jpeg".data)
    quality := 7 / 10 }

/-- The synchronous prefix of handleGenerateImage (lines 200-213): the
validation check and the state clearing. The second component is the
argument of the remote generate call, none when the remote capability is
not invoked. -/
def handleGenerateImageStart (generationPrompt : Str) (s : AppState) :
    AppState × Option Str :=
  if (jsTrim generationPrompt).isEmpty then
    ({ s with error := some ("Cannot generate image from an empty prompt.".data) }, none)
  else
    ({ s with error := none, isUploadedImage := false, imageUrl := none,
              undoStack := [], suggestedEdits := none, refinedPrompts := none },
     some generationPrompt)

/-- The success continuation of the remote generate call (lines 217-219):
install the new image, record it in history, clear the edit prompt. -/
def handleGenerateImageSuccess (thumb : Str → Str) (imageUrl : Str) (s : AppState) :
    AppState :=
  { updateImageHistory thumb imageUrl { s with imageUrl := some imageUrl } with
    editPrompt := [] }

/-- The resolution of the background refinePromptV2 call (lines 224-225):
the arriving result is installed unconditionally; the component keeps no
generation token and performs no staleness check. -/
def refineResolve (refinedResults : RefinePromptV2Output) (s : AppState) : AppState :=
  { s with refinedPrompts := some refinedResults }

/-- The interleaving in which Generate(p1) succeeds with img1; before its
background refinement resolves, Generate(p2) starts and succeeds with
img2; then both pending refinement calls resolve, p1's one last exactly
when p1ResolvesLast. refineFlow is the external refinement capability. -/
def staleRefineScenario (thumb : Str → Str) (refineFlow : Str → RefinePromptV2Output)
    (p1 p2 img1 img2 : Str) (p1ResolvesLast : Bool) (s0 : AppState) : AppState :=
  let s1 := handleGenerateImageSuccess thumb img1 (handleGenerateImageStart p1 s0).1
  let s2 := handleGenerateImageSuccess thumb img2 (handleGenerateImageStart p2 s1).1
  if p1ResolvesLast then refineResolve (refineFlow p1) (refineResolve (refineFlow p2) s2)
  else refineResolve (refineFlow p2) (refineResolve (refineFlow p1) s2)

/-- The synchronous prefix of handleEditImage (lines 239-255): resolve
the effective prompt (editActionPrompt falling back to the editPrompt
field when absent or empty), validate, clear error and suggestions, and
perform the optimistic undo push. The second component carries the
arguments (base image, instruction) of the remote edit call, none when
the remote capability is not invoked. -/
def handleEditImageStart (editActionPrompt : Option Str) (s : AppState) :
    AppState × Option (Str × Str) :=
  let finalEditPrompt :=
    match editActionPrompt with
    | some a => if a.isEmpty then s.editPrompt else a
    | none => s.editPrompt
  if (jsTrim finalEditPrompt).isEmpty then
    ({ s with error := some ("Please enter a prompt to edit the image.".data) }, none)
  else
    match s.imageUrl with
    | none =>
      ({ s with error := some ("No image to edit. Please generate or upload an image first.".data) },
       none)
    | some imageUrl =>
      if imageUrl.isEmpty then
        ({ s with error := some ("No image to edit. Please generate or upload an image first.".data) },
         none)
      else
        ({ s with error := none, suggestedEdits := none,
                  undoStack := pushUndo imageUrl s.undoStack },
         some (imageUrl, finalEditPrompt))

/-- The failure branch of handleEditImage (lines 264-271): surface the
classified error, then pop the undo chain and, when the popped entry is
truthy, restore it as the current image. -/
def handleEditImageFailure (errorMessage : Str) (s : AppState) : AppState :=
  let s1 := { s with error := some errorMessage }
  match s1.undoStack with
  | [] => s1
  | lastImage :: rest =>
    if lastImage.isEmpty then { s1 with undoStack := rest }
    else { s1 with imageUrl := some lastImage, undoStack := rest }

/-- An edit attempt whose remote call fails with errorMessage: the
synchronous prefix followed by the failure branch. The boolean records
whether the remote edit capability was invoked. -/
def editAttemptFailed (editActionPrompt : Option Str) (errorMessage : Str)
    (s : AppState) : AppState × Bool :=
  match handleEditImageStart editActionPrompt s with
  | (s1, none) => (s1, false)
  | (s1, some _) => (handleEditImageFailure errorMessage s1, true)

/-- handleReset (lines 358-367): clear prompts, image, undo chain, error
and suggestion sets; the history fields are not assigned. -/
def handleReset (s : AppState) : AppState :=
  { s with prompt := [], editPrompt := [], imageUrl := none, undoStack := [],
           error := none, refinedPrompts := none, isUploadedImage := false,
           suggestedEdits := none }

/-- handleHistoryImageClick (lines 369-383): load the stored thumbnail as
the current image, clear the undo chain, both prompt fields, the error
and the refined prompts, mark the image as externally sourced. The second
component is the argument passed to handleSuggestEdits. -/
def handleHistoryImageClick (histImageUrl : Str) (s : AppState) : AppState × Str :=
  ({ s with imageUrl := some histImageUrl, undoStack := [], editPrompt := [],
            error := none, prompt := [], refinedPrompts := none,
            isUploadedImage := true },
   histImageUrl)

/-- A state whose undo chain is already at capacity MAX_UNDO_STEPS. -/
def exChainFull : AppState :=
  { initState with
    imageUrl := some ['A'],
    undoStack := [['p'], ['q'], ['r'], ['s'], ['t']] }

/-- A state whose undo chain is below capacity. -/
def exChainSmall : AppState :=
  { initState with imageUrl := some ['A'], undoStack := [['p'], ['q']] }

/-- A persisted array containing duplicate entries, as the load effect may
install it verbatim. -/
def loadedDupHistory : List Str := [['a'], ['a'], ['b'], ['b'], ['c'], ['c']]

/-- A concrete stand-in for the external refinement capability, mapping
each prompt to a distinct one-item output. -/
def exRefineFlow (p : Str) : RefinePromptV2Output :=
  { basic := [{ title := p, description := p }], intermediate := [], advanced := [] }

theorem ws_jsTrim_nil {l : Str} (h : ∀ c ∈ l, isJsWhitespace c = true) :
    jsTrim l = [] := by
  have h1 : l.dropWhile isJsWhitespace = [] := List.dropWhile_eq_nil_iff.mpr h
  simp [jsTrim, h1]

theorem recordThumbnail_length_le (t : Str) (h : List Str) :
    (recordThumbnail t h).length ≤ MAX_HISTORY_LENGTH := by
  simp only [recordThumbnail, List.length_take]
  exact Nat.min_le_left _ _

theorem recordThumbnail_head (t : Str) (h : List Str) :
    (recordThumbnail t h).head? = some t := by
  simp [recordThumbnail, MAX_HISTORY_LENGTH]

theorem recordThumbnail_nodup {h : List Str} (hnd : h.Nodup) (t : Str) :
    (recordThumbnail t h).Nodup := by
  have hcons : (t :: h.filter (fun url => decide (url ≠ t))).Nodup := by
    refine List.nodup_cons.mpr ⟨?_, hnd.filter _⟩
    intro hmem
    have := (List.mem_filter.1 hmem).2
    simp at this
  exact List.Nodup.sublist (List.take_sublist _ _) hcons

theorem recordThumbnail_subset {x t : Str} {h : List Str}
    (hx : x ∈ recordThumbnail t h) : x = t ∨ x ∈ h := by
  have hmem : x ∈ t :: h.filter (fun url => decide (url ≠ t)) :=
    List.take_subset _ _ hx
  rcases List.mem_cons.1 hmem with h1 | h2
  · exact Or.inl h1
  · exact Or.inr (List.mem_filter.1 h2).1

theorem recordAll_cons (t : Str) (ts : List Str) (h : List Str) :
    recordAll (t :: ts) h = recordAll ts (recordThumbnail t h) := rfl

theorem recordAll_length_le (ts : List Str) (h : List Str)
    (hh : h.length ≤ MAX_HISTORY_LENGTH) :
    (recordAll ts h).length ≤ MAX_HISTORY_LENGTH := by
  induction ts generalizing h with
  | nil => exact hh
  | cons t ts ih => exact ih _ (recordThumbnail_length_le t h)

theorem recordAll_nodup (ts : List Str) (h : List Str) (hh : h.Nodup) :
    (recordAll ts h).Nodup := by
  induction ts generalizing h with
  | nil => exact hh
  | cons t ts ih => exact ih _ (recordThumbnail_nodup hh t)

theorem recordAll_append_singleton (ts : List Str) (t : Str) (h : List Str) :
    recordAll (ts ++ [t]) h = recordThumbnail t (recordAll ts h) := by
  simp [recordAll, List.foldl_append]

theorem recordAll_subset (ts : List Str) (h : List Str) :
    ∀ x ∈ recordAll ts h, x ∈ ts ∨ x ∈ h := by
  induction ts generalizing h with
  | nil => intro x hx; exact Or.inr hx
  | cons t ts ih =>
    intro x hx
    rcases ih (recordThumbnail t h) x hx with h1 | h2
    · exact Or.inl (List.mem_cons_of_mem _ h1)
    · rcases recordThumbnail_subset h2 with rfl | h3
      · exact Or.inl (List.mem_cons_self _ _)
      · exact Or.inr h3

theorem take_append_take (n : Nat) (l t : List Str) :
    (l ++ t.take n).take n = (l ++ t).take n := by
  rw [List.take_append_eq_append_take, List.take_append_eq_append_take,
    List.take_take, Nat.min_eq_left (Nat.sub_le n l.length)]

theorem foldl_pushUndo (ps : List Str) :
    ∀ st : List Str, st.length ≤ MAX_UNDO_STEPS →
      ps.foldl (fun st p => pushUndo p st) st = (ps.reverse ++ st).take MAX_UNDO_STEPS := by
  induction ps with
  | nil =>
    intro st hst
    simpa using (List.take_of_length_le hst).symm
  | cons p ps ih =>
    intro st hst
    rw [List.foldl_cons, ih (pushUndo p st) ?_]
    · rw [pushUndo, take_append_take]
      simp
    · simp only [pushUndo, List.length_take]
      exact Nat.min_le_left _ _

theorem pushAll_eq (ps : List Str) :
    pushAll ps = ps.reverse.take MAX_UNDO_STEPS := by
  simpa using foldl_pushUndo ps [] (by simp)

/-- Claim C3: for every sequence of record calls starting from the empty
history, the resulting list has length at most 5, contains no two
content-identical entries, and has the most recently recorded entry
first. -/
theorem history_record_invariant (ts : List Str) :
    (recordAll ts []).length ≤ MAX_HISTORY_LENGTH ∧
    (recordAll ts []).Nodup ∧
    ∀ t, (recordAll (ts ++ [t]) []).head? = some t := by
  refine ⟨recordAll_length_le ts [] (by simp), recordAll_nodup ts [] List.nodup_nil, ?_⟩
  intro t
  rw [recordAll_append_singleton]
  exact recordThumbnail_head t _

/-- Claim C4: for every sequence of pushes the undo chain length never
exceeds 5; the chain holds the reversed push sequence truncated to 5, so
pops return entries in strict last-in-first-out order; pushing one more
entry puts it at the popping front; popping an exhausted chain leaves the
state, in particular the current image, unchanged. -/
theorem undo_chain_lifo (ps : List Str) (s : AppState) :
    pushAll ps = ps.reverse.take MAX_UNDO_STEPS ∧
    (pushAll ps).length ≤ MAX_UNDO_STEPS ∧
    (∀ p, pushAll (ps ++ [p]) = p :: (pushAll ps).take (MAX_UNDO_STEPS - 1)) ∧
    (s.undoStack = [] → handleUndo s = s) ∧
    (∀ lastImage rest, s.undoStack = lastImage :: rest →
      handleUndo s = { s with imageUrl := some lastImage, undoStack := rest }) := by
  refine ⟨pushAll_eq ps, ?_, ?_, ?_, ?_⟩
  · rw [pushAll_eq]
    simp only [List.length_take]
    exact Nat.min_le_left _ _
  · intro p
    have hstep : pushAll (ps ++ [p]) = pushUndo p (pushAll ps) := by
      simp [pushAll, List.foldl_append]
    rw [hstep, pushUndo, show MAX_UNDO_STEPS = (MAX_UNDO_STEPS - 1) + 1 from rfl,
      List.take_succ_cons]
    simp
  · intro hnil
    unfold handleUndo
    rw [hnil]
  · intro lastImage rest hcons
    unfold handleUndo
    rw [hcons]

/-- Witness for claim C4 at a concrete push sequence and the empty
chain. -/
theorem undo_chain_lifo_witness :
    pushAll [['a'], ['b']] = [['b'], ['a']] ∧ handleUndo initState = initState := by
  have hth := undo_chain_lifo [['a'], ['b']] initState
  refine ⟨?_, hth.2.2.2.1 rfl⟩
  rw [hth.1]
  decide

/-- Claim C7 counterexample: when the stored value is absent, the code
reports no load error (the catch block never runs), contradicting the
claim that a non-fatal load error is reported in every absent-or-malformed
case. -/
theorem load_on_start_absent_counterexample :
    ¬ ((loadHistoryOnStart StoredHistory.absent).1 = [] ∧
       (loadHistoryOnStart StoredHistory.absent).2 = true) := by decide

/-- Claim C7 (amended): on initialization the in-memory history starts
empty whenever the stored value is absent, malformed, or a non-array; a
non-fatal load error is reported only in the malformed (parse-failure)
case, not when the value is absent. -/
theorem load_on_start_amended :
    loadHistoryOnStart StoredHistory.absent = ([], false) ∧
    loadHistoryOnStart StoredHistory.unparsable = ([], true) ∧
    loadHistoryOnStart StoredHistory.parsedNonArray = ([], false) ∧
    ∀ l, loadHistoryOnStart (StoredHistory.parsedArray l) = (l, false) :=
  ⟨rfl, rfl, rfl, fun _ => rfl⟩

/-- Claim C8: Reset clears the prompt text, the edit-prompt text, the
current image, the undo chain, the error and both suggestion sets, and
leaves the in-memory history and the persisted slot contents unchanged
(the save effect rewrites the unchanged list). -/
theorem reset_frame_condition (s : AppState) :
    (handleReset s).prompt = [] ∧ (handleReset s).editPrompt = [] ∧
    (handleReset s).imageUrl = none ∧ (handleReset s).undoStack = [] ∧
    (handleReset s).error = none ∧ (handleReset s).refinedPrompts = none ∧
    (handleReset s).suggestedEdits = none ∧
    (handleReset s).isUploadedImage = false ∧
    (handleReset s).imageHistory = s.imageHistory ∧
    (handleReset s).persistedHistory = s.persistedHistory ∧
    (persistHistory (handleReset s)).persistedHistory = s.imageHistory :=
  ⟨rfl, rfl, rfl, rfl, rfl, rfl, rfl, rfl, rfl, rfl, rfl⟩

/-- Claim C9 counterexample: a persisted array with duplicate entries is
installed verbatim, and the next record call does not restore the
no-duplicates invariant, contradicting the claim that the invariant holds
again once record is next called. -/
theorem load_verbatim_counterexample :
    (loadHistoryOnStart (StoredHistory.parsedArray loadedDupHistory)).1 =
      loadedDupHistory ∧
    ¬ (recordThumbnail ['t']
        (loadHistoryOnStart (StoredHistory.parsedArray loadedDupHistory)).1).Nodup := by
  decide

/-- Claim C9 (amended): on initialization any parsed JSON array is
installed exactly as stored, with no truncation, duplicate removal or
validation; the next record call re-establishes the length bound of 5 and
puts the new entry first, but duplicates among previously stored entries
may persist. -/
theorem load_verbatim_amended (l : List Str) (t : Str) :
    (loadHistoryOnStart (StoredHistory.parsedArray l)).1 = l ∧
    (recordThumbnail t l).length ≤ MAX_HISTORY_LENGTH ∧
    (recordThumbnail t l).head? = some t :=
  ⟨rfl, recordThumbnail_length_le t l, recordThumbnail_head t l⟩

/-- Claim C10: selecting a history entry sets the current image to the
stored thumbnail payload itself, clears the undo chain, both prompt
fields, the error and the refined prompts, marks the image as externally
sourced, and invokes the suggestion capability against that thumbnail;
history entries recorded from images are thumbnails of those images, and
a subsequent edit calls the remote capability with the thumbnail as base
image. -/
theorem history_click_thumbnail (s : AppState) (e : Str) (imgs : List Str)
    (thumb : Str → Str) :
    (handleHistoryImageClick e s).1.imageUrl = some e ∧
    (handleHistoryImageClick e s).2 = e ∧
    (handleHistoryImageClick e s).1.undoStack = [] ∧
    (handleHistoryImageClick e s).1.editPrompt = [] ∧
    (handleHistoryImageClick e s).1.prompt = [] ∧
    (handleHistoryImageClick e s).1.error = none ∧
    (handleHistoryImageClick e s).1.refinedPrompts = none ∧
    (handleHistoryImageClick e s).1.isUploadedImage = true ∧
    (∀ x ∈ recordAll (imgs.map thumb) [], ∃ i ∈ imgs, x = thumb i) ∧
    (∀ q, (jsTrim q).isEmpty = false → q ≠ [] → e ≠ [] →
      (handleEditImageStart (some q) (handleHistoryImageClick e s).1).2 =
        some (e, q)) := by
  refine ⟨rfl, rfl, rfl, rfl, rfl, rfl, rfl, rfl, ?_, ?_⟩
  · intro x hx
    rcases recordAll_subset (imgs.map thumb) [] x hx with h1 | h2
    · rcases List.mem_map.1 h1 with ⟨i, hi, rfl⟩
      exact ⟨i, hi, rfl⟩
    · exact absurd h2 (List.not_mem_nil x)
  · intro q hq hq0 he
    have hqe : q.isEmpty = false := by
      cases q with
      | nil => exact absurd rfl hq0
      | cons a as => rfl
    have hee : e.isEmpty = false := by
      cases e with
      | nil => exact absurd rfl he
      | cons a as => rfl
    simp [handleEditImageStart, handleHistoryImageClick, hq, hqe, hee]

/-- Witness for claim C10 at a concrete history entry and edit prompt. -/
theorem history_click_thumbnail_witness :
    (handleHistoryImageClick ['h'] initState).1.imageUrl = some ['h'] ∧
    (handleEditImageStart (some ['q']) (handleHistoryImageClick ['h'] initState).1).2 =
      some (['h'], ['q']) := by
  have hth := history_click_thumbnail initState ['h'] [] id
  exact ⟨hth.1, hth.2.2.2.2.2.2.2.2.2 ['q'] (by decide) (by decide) (by decide)⟩

/-- Claim C6: a whitespace-only (or empty) prompt makes Generate set a
validation error without invoking the remote generate capability; a
whitespace-only effective instruction makes Edit reject without invoking
the remote edit capability, as does a null base image. -/
theorem validation_fail_fast (p instr : Str) (s t : AppState) :
    ((∀ c ∈ p, isJsWhitespace c = true) →
        (handleGenerateImageStart p s).2 = none ∧
        (handleGenerateImageStart p s).1.error ≠ none) ∧
    ((∀ c ∈ instr, isJsWhitespace c = true) → instr ≠ [] →
        (handleEditImageStart (some instr) t).2 = none) ∧
    ((∀ c ∈ t.editPrompt, isJsWhitespace c = true) →
        (handleEditImageStart none t).2 = none) ∧
    (t.imageUrl = none → (handleEditImageStart (some instr) t).2 = none) := by
  refine ⟨?_, ?_, ?_, ?_⟩
  · intro hws
    have h1 : jsTrim p = [] := ws_jsTrim_nil hws
    exact ⟨by simp [handleGenerateImageStart, h1], by simp [handleGenerateImageStart, h1]⟩
  · intro hws hne
    have hie : instr.isEmpty = false := by
      cases instr with
      | nil => exact absurd rfl hne
      | cons a as => rfl
    have h1 : jsTrim instr = [] := ws_jsTrim_nil hws
    simp [handleEditImageStart, hie, h1]
  · intro hws
    have h1 : jsTrim t.editPrompt = [] := ws_jsTrim_nil hws
    simp [handleEditImageStart, h1]
  · intro him
    simp only [handleEditImageStart, him]
    split <;> split <;> rfl

/-- Witness for claim C6 at a whitespace prompt and instruction over the
initial state. -/
theorem validation_fail_fast_witness :
    (handleGenerateImageStart [' '] initState).2 = none ∧
    (handleEditImageStart (some [' ']) initState).2 = none := by
  have hth := validation_fail_fast [' '] [' '] initState initState
  exact ⟨(hth.1 (by decide)).1, hth.2.1 (by decide) (by decide)⟩

/-- Claim C5: idealizing JavaScript numbers as rationals, if an image's
longer side exceeds 400 the resized longer side equals exactly 400 and
the aspect ratio is preserved; if both sides are at most 400 the
dimensions are unchanged; the re-encoding quality factor is 0.7. -/
theorem thumbnail_dimension_bound (w h : ℚ) (hw : 0 < w) (hh : 0 < h) :
    (400 < max w h →
      max (resizeDims ⟨w, h⟩ 400).width (resizeDims ⟨w, h⟩ 400).height = 400 ∧
      (resizeDims ⟨w, h⟩ 400).width * h = w * (resizeDims ⟨w, h⟩ 400).height) ∧
    (w ≤ 400 → h ≤ 400 → resizeDims ⟨w, h⟩ 400 = ⟨w, h⟩) ∧
    (createThumbnailDataUri ⟨w, h⟩).quality = 7 / 10 := by
  have hw0 : w ≠ 0 := ne_of_gt hw
  have hh0 : h ≠ 0 := ne_of_gt hh
  refine ⟨?_, ?_, rfl⟩
  · intro hmax
    unfold resizeDims
    split_ifs with h1 h2 h3
    · constructor
      · dsimp only
        rw [max_eq_left]
        rw [show h * (400 / w) = 400 * h / w by ring, div_le_iff₀ hw]
        linarith
      · dsimp only
        field_simp
        ring
    · exfalso
      rw [max_eq_left (le_of_lt h1)] at hmax
      linarith
    · constructor
      · dsimp only
        rw [max_eq_right]
        rw [show w * (400 / h) = 400 * w / h by ring, div_le_iff₀ hh]
        have := not_lt.1 h1
        linarith
      · dsimp only
        field_simp
    · exfalso
      rw [max_eq_right (not_lt.1 h1)] at hmax
      linarith
  · intro hw4 hh4
    unfold resizeDims
    split_ifs with h1 h2 h3
    · exfalso; linarith
    · rfl
    · exfalso; linarith
    · rfl

/-- Witness for claim C5 at a concrete 800 by 600 image. -/
theorem thumbnail_dimension_bound_witness :
    (0 : ℚ) < 800 ∧
    max (resizeDims ⟨800, 600⟩ 400).width (resizeDims ⟨800, 600⟩ 400).height = 400 :=
  ⟨by norm_num,
   ((thumbnail_dimension_bound 800 600 (by norm_num) (by norm_num)).1 (by norm_num)).1⟩

/-- Claim C1 counterexample: with the undo chain already at its capacity
of 5 entries, the optimistic push drops the oldest entry, so after a
failed edit the rollback restores the current image but leaves the chain
at length 4, not at its pre-push length 5. -/
theorem edit_failure_rollback_counterexample :
    (editAttemptFailed (some ['x']) ['e'] exChainFull).1.imageUrl = some ['A'] ∧
    (editAttemptFailed (some ['x']) ['e'] exChainFull).1.undoStack.length = 4 ∧
    exChainFull.undoStack.length = 5 := by decide

/-- Claim C1 (amended): if the current image is A and an edit attempt
fails after the optimistic push, the rollback restores A as the current
image and leaves the chain equal to the first 4 entries of the pre-push
chain; the chain length equals its pre-push value whenever the pre-push
chain was below the capacity of 5, while a chain already at capacity ends
one entry shorter, its oldest entry lost. -/
theorem edit_failure_rollback_amended (s : AppState) (A q errMsg : Str)
    (himg : s.imageUrl = some A) (hA : A ≠ [])
    (hq : (jsTrim q).isEmpty = false) (hq0 : q ≠ []) :
    (editAttemptFailed (some q) errMsg s).2 = true ∧
    (editAttemptFailed (some q) errMsg s).1.imageUrl = some A ∧
    (editAttemptFailed (some q) errMsg s).1.undoStack =
      s.undoStack.take (MAX_UNDO_STEPS - 1) ∧
    (s.undoStack.length < MAX_UNDO_STEPS →
      (editAttemptFailed (some q) errMsg s).1.undoStack.length =
        s.undoStack.length) := by
  have hqe : q.isEmpty = false := by
    cases q with
    | nil => exact absurd rfl hq0
    | cons a as => rfl
  have hAe : A.isEmpty = false := by
    cases A with
    | nil => exact absurd rfl hA
    | cons a as => rfl
  have hstart : handleEditImageStart (some q) s =
      ({ s with error := none, suggestedEdits := none,
                undoStack := pushUndo A s.undoStack }, some (A, q)) := by
    simp [handleEditImageStart, hqe, hq, himg, hAe]
  have hpush : pushUndo A s.undoStack =
      A :: s.undoStack.take (MAX_UNDO_STEPS - 1) := by
    rw [pushUndo, show MAX_UNDO_STEPS = (MAX_UNDO_STEPS - 1) + 1 from rfl,
      List.take_succ_cons]
    simp
  have hfail : editAttemptFailed (some q) errMsg s =
      (handleEditImageFailure errMsg
        { s with error := none, suggestedEdits := none,
                 undoStack := pushUndo A s.undoStack }, true) := by
    unfold editAttemptFailed
    rw [hstart]
  have hfb : handleEditImageFailure errMsg
      { s with error := none, suggestedEdits := none,
               undoStack := pushUndo A s.undoStack } =
      { s with error := some errMsg, suggestedEdits := none,
               imageUrl := some A,
               undoStack := s.undoStack.take (MAX_UNDO_STEPS - 1) } := by
    simp [handleEditImageFailure, hpush, hAe]
  rw [hfail, hfb]
  refine ⟨rfl, rfl, rfl, ?_⟩
  intro hlen
  have h5 : MAX_UNDO_STEPS = 5 := rfl
  simp only [List.length_take]
  exact Nat.min_eq_right (by omega)

/-- Witness for the amended claim C1 at a chain of 2 entries: the length
is restored exactly. -/
theorem edit_failure_rollback_amended_witness :
    (editAttemptFailed (some ['x']) ['e'] exChainSmall).1.imageUrl = some ['A'] ∧
    (editAttemptFailed (some ['x']) ['e'] exChainSmall).1.undoStack.length =
      exChainSmall.undoStack.length := by
  have hth := edit_failure_rollback_amended exChainSmall ['A'] ['x'] ['e']
    rfl (by decide) (by decide) (by decide)
  exact ⟨hth.2.1, hth.2.2.2 (by decide)⟩

/-- Claim C2 counterexample: Generate(p1) succeeds, Generate(p2) starts
before p1's background refinement resolves, and p1's refinement resolves
last; the late result is installed, so the visible refined prompts are
those of p1, not p2. -/
theorem stale_refinement_counterexample :
    (staleRefineScenario id exRefineFlow ['a'] ['b'] ['i'] ['j'] true
      initState).refinedPrompts = some (exRefineFlow ['a']) ∧
    exRefineFlow ['a'] ≠ exRefineFlow ['b'] := by decide

/-- Claim C2 (amended): the component keeps no generation token, so when
Generate(p2) starts before p1's background refinement resolves, each
refinement result is installed on arrival and the refined prompts visible
after both complete are those of whichever refinement resolved last; in
particular p1's late-arriving result is not discarded. -/
theorem stale_refinement_installed_last (thumb : Str → Str)
    (refineFlow : Str → RefinePromptV2Output) (p1 p2 img1 img2 : Str) (b : Bool)
    (s0 : AppState)
    (_hp1 : (jsTrim p1).isEmpty = false) (_hp2 : (jsTrim p2).isEmpty = false) :
    (staleRefineScenario thumb refineFlow p1 p2 img1 img2 b s0).refinedPrompts =
      some (refineFlow (if b then p1 else p2)) := by
  cases b <;> simp [staleRefineScenario, refineResolve]

/-- Witness for the amended claim C2 with p2's refinement resolving
last. -/
theorem stale_refinement_installed_last_witness :
    (staleRefineScenario id exRefineFlow ['a'] ['b'] ['i'] ['j'] false
      initState).refinedPrompts = some (exRefineFlow ['b']) := by
  have hth := stale_refinement_installed_last id exRefineFlow ['a'] ['b'] ['i'] ['j']
    false initState (by decide) (by decide)
  simpa using hth

end ImageForge
